import Mathlib

/-!
Verification of the consensus-engine contract (src/consensus/src/engine.rs).

This file gives a shallow embedding of the data model and the default
implementations of the `ConsensusEngine` trait, of the RLP byte-string
encoding used to persist `PendingTransition`, and of the `Display`
rendering of `EngineError`, and proves the stated properties about them.
-/

/-- Byte strings (`Vec<u8>` / `Bytes` in the source): lists of naturals,
each intended to be below 256. -/
abbrev Bytes := List Nat

/-- Modelled from the spec: `H256` (codechain_types) is an opaque
fixed-width 256-bit hash identifier; its internals are never inspected by
this module, so it is modelled as a natural number. -/
abbrev H256 := Nat

/-- Modelled from the spec: `Address` (codechain_types) is an opaque
fixed-width identifier supplied by a cryptography module; this module
only observes it through its `Display` rendering, so an address is
identified with its rendered string. -/
abbrev Address := String

/-- Modelled from the spec: `Signature` (keys crate) is an opaque
signature value from the cryptography module. -/
abbrev Signature := List Nat

/-- Voting errors (`enum EngineError` in engine.rs). -/
inductive EngineError where
  /-- Signature or author field does not belong to an authority. -/
  | NotAuthorized (address : Address)

/-- `impl fmt::Display for EngineError` (engine.rs): the inner message is
formatted first (`"Signer {} is not authorized."`), then wrapped as
`"Engine error ({})"`. -/
def EngineError.display : EngineError → String
  | .NotAuthorized address =>
      "Engine error (" ++ ("Signer " ++ address ++ " is not authorized.") ++ ")"

/-- Modelled from the spec: the consensus crate's own error type
(`super::error::Error`, not under src/); the spec fixes only its existence
as error channel (b), able to carry an `EngineError`. -/
inductive Error where
  | Engine (e : EngineError)

/-- Decode errors of the `rlp` crate (`rlp::DecoderError`), restricted to
the variants reachable from byte-string decoding. -/
inductive DecoderError where
  | RlpIsTooShort
  | RlpExpectedToBeData
  | RlpInconsistentLengthAndData
  | RlpInvalidIndirection
  | RlpDataLenWithZeroPrefix
  | RlpIsTooBig
deriving DecidableEq

/-- Minimal big-endian base-256 digit string of a natural number: the
encoding of a `usize` length used by the RLP long-string form. -/
def beBytes (n : Nat) : List Nat :=
  if h : n = 0 then [] else beBytes (n / 256) ++ [n % 256]
termination_by n
decreasing_by exact Nat.div_lt_self (Nat.pos_of_ne_zero h) (by omega)

/-- Big-endian base-256 value of a digit string (the fold performed by the
`rlp` crate's `decode_usize`). -/
def fromBe (l : List Nat) : Nat :=
  l.foldl (fun acc d => acc * 256 + d) 0

/-- Modelled from the spec: the byte-string ("length-prefixed byte
string") encoder of the external `rlp` crate, which `PendingTransition`'s
`Encodable` impl delegates to via `RlpStream::append`. A value of length
one whose byte is below 0x80 is its own encoding; values of length at
most 55 get a one-byte `0x80 + len` prefix; longer values get a
`0xb7 + len_of_len` prefix followed by the big-endian length. -/
def encodeValue (value : List Nat) : List Nat :=
  if value.length = 1 ∧ value.headD 0 < 0x80 then value
  else if value.length ≤ 55 then (0x80 + value.length) :: value
  else (0xb7 + (beBytes value.length).length) :: (beBytes value.length ++ value)

/-- Modelled from the spec: `decode_usize` of the external `rlp` crate,
reading a big-endian `usize` (at most 8 bytes, no leading zero byte). -/
def decodeUsize (data : List Nat) : Except DecoderError Nat :=
  if data.length = 0 then Except.error DecoderError.RlpIsTooShort
  else if data.length ≤ 8 then
    if data.headD 0 = 0 then Except.error DecoderError.RlpDataLenWithZeroPrefix
    else Except.ok (fromBe data)
  else Except.error DecoderError.RlpIsTooBig

/-- Modelled from the spec: the byte-string decoder of the external `rlp`
crate (`BasicDecoder::decode_value`), which `PendingTransition`'s
`Decodable` impl reaches through `UntrustedRlp::as_val::<Vec<u8>>`.
Truncated or malformed inputs yield a `DecoderError`. -/
def decodeValue : List Nat → Except DecoderError (List Nat)
  | [] => Except.error DecoderError.RlpIsTooShort
  | l :: rest =>
    if l ≤ 0x7f then Except.ok [l]
    else if l ≤ 0xb7 then
      let len := l - 0x80
      if rest.length + 1 < 1 + len then Except.error DecoderError.RlpInconsistentLengthAndData
      else
        let d := rest.take len
        if l = 0x81 ∧ d.headD 0 < 0x80 then Except.error DecoderError.RlpInvalidIndirection
        else Except.ok d
    else if l ≤ 0xbf then
      let lenOfLen := l - 0xb7
      if rest.length + 1 < 1 + lenOfLen then Except.error DecoderError.RlpInconsistentLengthAndData
      else
        match decodeUsize (rest.take lenOfLen) with
        | Except.error e => Except.error e
        | Except.ok len =>
          if rest.length + 1 < 1 + lenOfLen + len then
            Except.error DecoderError.RlpInconsistentLengthAndData
          else Except.ok ((rest.drop lenOfLen).take len)
    else Except.error DecoderError.RlpExpectedToBeData

/-- An epoch transition pending a finality proof (engine.rs,
`struct PendingTransition`). -/
structure PendingTransition where
  /-- "transition/epoch" proof from the engine. -/
  proof : Bytes

/-- `impl Encodable for PendingTransition` (engine.rs): appends `proof`
to the stream as a single byte-string value. -/
def PendingTransition.rlp_append (pt : PendingTransition) (s : List Nat) : List Nat :=
  s ++ encodeValue pt.proof

/-- `rlp::encode` of a `PendingTransition`: its `rlp_append` run on an
empty stream. -/
def rlpEncode (pt : PendingTransition) : List Nat :=
  pt.rlp_append []

/-- `impl Decodable for PendingTransition` (engine.rs): reads `proof` as
a single byte-string value; any decode error is propagated. -/
def PendingTransition.decode (bytes : List Nat) : Except DecoderError PendingTransition :=
  match decodeValue bytes with
  | Except.ok v => Except.ok ⟨v⟩
  | Except.error e => Except.error e

/-- Seal type (engine.rs, `enum Seal`). -/
inductive Seal where
  /-- Proposal seal; should be broadcasted, but not inserted into blockchain. -/
  | Proposal (payload : List Bytes)
  /-- Regular block seal; should be part of the blockchain. -/
  | Regular (payload : List Bytes)
  /-- Engine does generate seal for this block right now. -/
  | None

/-- Proof generated on epoch change (engine.rs, `enum Proof`). -/
inductive Proof where
  /-- Known proof (extracted from signal). -/
  | Known (bytes : Bytes)

/-- Results of a query of whether an epoch change occurred at the given
block (engine.rs, `enum EpochChange`). -/
inductive EpochChange where
  /-- Cannot determine until more data is passed. -/
  | Unsure
  /-- No epoch change. -/
  | No
  /-- The epoch will change, with proof. -/
  | Yes (proof : Proof)

/-- The abstract Machine capability: supplies the `Header`, `LiveBlock`
and `Error` types the engine is polymorphic over. -/
structure Machine where
  Header : Type
  LiveBlock : Type
  Error : Type

/-- Modelled from the spec: the abstract `EpochVerifier` capability
(`super::epoch`, not under src/) — a polymorphic "can verify a header
against this epoch" object, represented by its verification function. -/
def EpochVerifier (M : Machine) : Type :=
  M.Header → Except M.Error Unit

/-- Modelled from the spec: `NoOp` (`super::epoch`, not under src/), the
no-op epoch verifier that accepts everything. -/
def NoOp (M : Machine) : EpochVerifier M :=
  fun _ => Except.ok ()

/-- Generated epoch verifier (engine.rs, `enum ConstructedVerifier`). -/
inductive ConstructedVerifier (M : Machine) where
  /-- Fully trusted verifier. -/
  | Trusted (verifier : EpochVerifier M)
  /-- Verifier unconfirmed. Check whether given finality proof finalizes
  given hash under previous epoch. -/
  | Unconfirmed (verifier : EpochVerifier M) (finalityProof : Bytes) (hash : H256)
  /-- Error constructing verifier. -/
  | Err (error : Error)

/-- Type alias for a function we can get headers by hash through
(engine.rs, `type Headers`). -/
abbrev Headers (H : Type) := H256 → Option H

/-- Type alias for a function we can query pending transitions by block
hash through (engine.rs, `type PendingTransitionStore`). -/
abbrev PendingTransitionStore := H256 → Option PendingTransition

/-- Outcome of a Rust call that may panic; used to model the
`unimplemented!()` default body of `sign`. -/
inductive PanicOutcome (α : Type) where
  | panics (msg : String)
  | returns (value : α)

/-- A consensus mechanism for the chain (engine.rs,
`trait ConsensusEngine<M: Machine>`). Default method bodies of the trait
appear as default field values, exactly as in the source. -/
structure ConsensusEngine (M : Machine) where
  /-- The name of this engine. -/
  name : String
  /-- The number of additional header fields required for this engine. -/
  seal_fields : M.Header → Nat := fun _ => 0
  /-- None means that it requires external input (e.g. PoW) to seal a block. -/
  seals_internally : Option Bool := none
  /-- Attempt to seal the block internally. -/
  generate_seal : M.LiveBlock → M.Header → Seal := fun _ _ => Seal.None
  /-- Verify a locally-generated seal of a header. Required method. -/
  verify_local_seal : M.Header → Except M.Error Unit
  /-- Phase 1 quick block verification. Only does checks that are cheap. -/
  verify_block_basic : M.Header → Except M.Error Unit := fun _ => Except.ok ()
  /-- Phase 2 verification. Perform costly checks such as transaction signatures. -/
  verify_block_unordered : M.Header → Except M.Error Unit := fun _ => Except.ok ()
  /-- Phase 3 verification. Check block information against parent. -/
  verify_block_family : M.Header → M.Header → Except M.Error Unit := fun _ _ => Except.ok ()
  /-- Phase 4 verification. Verify block header against potentially external data. -/
  verify_block_external : M.Header → Except M.Error Unit := fun _ => Except.ok ()
  /-- Genesis epoch data. -/
  genesis_epoch_data : M.Header → Except String Bytes := fun _ => Except.ok []
  /-- Whether an epoch change is signalled at the given header but will
  require finality. -/
  signals_epoch_end : M.Header → EpochChange := fun _ => EpochChange.No
  /-- Whether a block is the end of an epoch. Returns optional transition proof. -/
  is_epoch_end : M.Header → Headers M.Header → PendingTransitionStore → Option Bytes :=
    fun _ _ _ => none
  /-- Create an epoch verifier from validation proof. -/
  epoch_verifier : M.Header → Bytes → ConstructedVerifier M :=
    fun _ _ => ConstructedVerifier.Trusted (NoOp M)
  /-- Trigger next step of the consensus engine. -/
  step : Unit → Unit := fun _ => ()
  /-- Block transformation functions, before the transactions. -/
  on_new_block : M.LiveBlock → Bool → Except M.Error M.LiveBlock :=
    fun block _ => Except.ok block
  /-- Block transformation functions, after the transactions. -/
  on_close_block : M.LiveBlock → Except M.Error M.LiveBlock :=
    fun block => Except.ok block
  /-- Sign using the EngineSigner; `unimplemented!()` by default, i.e. a
  panic, never a returned value. -/
  sign : H256 → PanicOutcome (Except Error Signature) :=
    fun _ => PanicOutcome.panics "not implemented"

/-- An engine that overrides none of the trait's default methods: only the
required methods (`name`, `verify_local_seal`) are supplied. -/
def ConsensusEngine.mkDefault (M : Machine) (nm : String)
    (vls : M.Header → Except M.Error Unit) : ConsensusEngine M where
  name := nm
  verify_local_seal := vls

/-- A concrete machine instance (all capabilities trivial), used to
instantiate the contract at concrete inputs. -/
abbrev trivialMachine : Machine :=
  ⟨Unit, Unit, Unit⟩

/-! ### Helper lemmas about the big-endian length encoding -/

theorem beBytes_zero : beBytes 0 = [] := by
  unfold beBytes
  simp

theorem beBytes_eq (n : Nat) (h : n ≠ 0) :
    beBytes n = beBytes (n / 256) ++ [n % 256] := by
  conv_lhs => unfold beBytes
  simp [h]

theorem beBytes_ne_nil (n : Nat) (h : n ≠ 0) : beBytes n ≠ [] := by
  rw [beBytes_eq n h]
  simp

theorem fromBe_append_digit (xs : List Nat) (d : Nat) :
    fromBe (xs ++ [d]) = fromBe xs * 256 + d := by
  simp [fromBe, List.foldl_append]

theorem fromBe_beBytes (n : Nat) : fromBe (beBytes n) = n := by
  induction n using Nat.strong_induction_on with
  | _ n ih =>
    by_cases h : n = 0
    · subst h
      simp [beBytes_zero, fromBe]
    · rw [beBytes_eq n h, fromBe_append_digit,
        ih (n / 256) (Nat.div_lt_self (Nat.pos_of_ne_zero h) (by omega))]
      omega

theorem headD_append_of_ne_nil (xs ys : List Nat) (d : Nat) (h : xs ≠ []) :
    (xs ++ ys).headD d = xs.headD d := by
  cases xs with
  | nil => exact absurd rfl h
  | cons a t => simp

theorem beBytes_headD_ne_zero (n : Nat) (h : n ≠ 0) : (beBytes n).headD 0 ≠ 0 := by
  induction n using Nat.strong_induction_on with
  | _ n ih =>
    rw [beBytes_eq n h]
    by_cases hq : n / 256 = 0
    · rw [hq, beBytes_zero, List.nil_append]
      simp
      omega
    · rw [headD_append_of_ne_nil _ _ _ (beBytes_ne_nil _ hq)]
      exact ih (n / 256) (Nat.div_lt_self (Nat.pos_of_ne_zero h) (by omega)) hq

theorem beBytes_length_le (k : Nat) : ∀ n : Nat, n < 256 ^ k → (beBytes n).length ≤ k := by
  induction k with
  | zero =>
    intro n hn
    have : n = 0 := by simpa using hn
    simp [this, beBytes_zero]
  | succ k ih =>
    intro n hn
    by_cases h : n = 0
    · simp [h, beBytes_zero]
    · rw [beBytes_eq n h]
      have hdiv : n / 256 < 256 ^ k := by
        apply Nat.div_lt_of_lt_mul
        calc n < 256 ^ (k + 1) := hn
          _ = 256 ^ k * 256 := by rw [pow_succ]
          _ = 256 * 256 ^ k := by ring
      have := ih (n / 256) hdiv
      simp [List.length_append]
      omega

theorem decodeUsize_beBytes (n : Nat) (h0 : n ≠ 0) (h8 : (beBytes n).length ≤ 8) :
    decodeUsize (beBytes n) = Except.ok n := by
  have hne := beBytes_ne_nil n h0
  rw [decodeUsize]
  rw [if_neg (by simpa using hne)]
  rw [if_pos h8]
  rw [if_neg (beBytes_headD_ne_zero n h0)]
  rw [fromBe_beBytes]

/-! ### Round-trip and truncation lemmas for the byte-string codec -/

theorem decodeValue_encodeValue (b : List Nat) (hlen : b.length < 2 ^ 64) :
    decodeValue (encodeValue b) = Except.ok b := by
  by_cases h1 : b.length = 1 ∧ b.headD 0 < 0x80
  · -- a single byte below 0x80 is its own encoding
    obtain ⟨hl, hh⟩ := h1
    cases b with
    | nil => simp at hl
    | cons x t =>
      cases t with
      | cons y t' => simp at hl
      | nil =>
        have hx : x < 128 := by simpa using hh
        have hE : encodeValue [x] = [x] := by
          rw [encodeValue, if_pos (by simpa using hx)]
        rw [hE, decodeValue, if_pos (by omega)]
  · by_cases h2 : b.length ≤ 55
    · -- short form: one prefix byte 0x80 + len
      have hE : encodeValue b = (0x80 + b.length) :: b := by
        rw [encodeValue, if_neg h1, if_pos h2]
      rw [hE, decodeValue]
      rw [if_neg (by omega), if_pos (by omega)]
      have hsub : 0x80 + b.length - 0x80 = b.length := by omega
      rw [hsub]
      rw [if_neg (by omega)]
      rw [List.take_length b]
      rw [if_neg ?_]
      · intro hc
        obtain ⟨hc1, hc2⟩ := hc
        exact h1 ⟨by omega, hc2⟩
    · -- long form: prefix byte 0xb7 + len-of-len, then the length
      push_neg at h2
      have hne0 : b.length ≠ 0 := by omega
      have hnil : beBytes b.length ≠ [] := beBytes_ne_nil _ hne0
      have hL1 : 1 ≤ (beBytes b.length).length := by
        cases hbe : beBytes b.length with
        | nil => exact absurd hbe hnil
        | cons a t => simp
      have hL8 : (beBytes b.length).length ≤ 8 := by
        apply beBytes_length_le
        calc b.length < 2 ^ 64 := hlen
          _ = 256 ^ 8 := by norm_num
      have hE : encodeValue b =
          (0xb7 + (beBytes b.length).length) :: (beBytes b.length ++ b) := by
        rw [encodeValue, if_neg h1, if_neg (by omega)]
      rw [hE, decodeValue]
      rw [if_neg (by omega), if_neg (by omega), if_pos (by omega)]
      have hsub : 0xb7 + (beBytes b.length).length - 0xb7 = (beBytes b.length).length := by
        omega
      rw [hsub]
      rw [if_neg (by simp [List.length_append]; omega)]
      rw [List.take_left (beBytes b.length) b]
      rw [decodeUsize_beBytes _ hne0 hL8]
      dsimp only
      rw [if_neg (by simp [List.length_append]; omega)]
      rw [List.drop_left (beBytes b.length) b, List.take_length b]

theorem decodeValue_take_encodeValue (b : List Nat) (hlen : b.length < 2 ^ 64)
    (k : Nat) (hk : k < (encodeValue b).length) :
    ∃ e, decodeValue ((encodeValue b).take k) = Except.error e := by
  cases k with
  | zero => exact ⟨DecoderError.RlpIsTooShort, by simp [decodeValue]⟩
  | succ j =>
    by_cases h1 : b.length = 1 ∧ b.headD 0 < 0x80
    · -- the encoding has length 1, so there is no strict prefix of length j+1
      have hE : encodeValue b = b := by rw [encodeValue, if_pos h1]
      rw [hE] at hk
      obtain ⟨hl, _⟩ := h1
      omega
    · by_cases h2 : b.length ≤ 55
      · -- short form: the payload is cut short
        have hE : encodeValue b = (0x80 + b.length) :: b := by
          rw [encodeValue, if_neg h1, if_pos h2]
        rw [hE] at hk ⊢
        simp only [List.length_cons] at hk
        rw [List.take_succ_cons]
        refine ⟨DecoderError.RlpInconsistentLengthAndData, ?_⟩
        rw [decodeValue]
        rw [if_neg (by omega), if_pos (by omega)]
        have hsub : 0x80 + b.length - 0x80 = b.length := by omega
        rw [hsub]
        rw [if_pos (by rw [List.length_take]; omega)]
      · -- long form: either the length bytes or the payload are cut short
        push_neg at h2
        have hne0 : b.length ≠ 0 := by omega
        have hnil : beBytes b.length ≠ [] := beBytes_ne_nil _ hne0
        have hL1 : 1 ≤ (beBytes b.length).length := by
          cases hbe : beBytes b.length with
          | nil => exact absurd hbe hnil
          | cons a t => simp
        have hL8 : (beBytes b.length).length ≤ 8 := by
          apply beBytes_length_le
          calc b.length < 2 ^ 64 := hlen
            _ = 256 ^ 8 := by norm_num
        have hE : encodeValue b =
            (0xb7 + (beBytes b.length).length) :: (beBytes b.length ++ b) := by
          rw [encodeValue, if_neg h1, if_neg (by omega)]
        rw [hE] at hk ⊢
        simp only [List.length_cons, List.length_append] at hk
        rw [List.take_succ_cons]
        refine ⟨DecoderError.RlpInconsistentLengthAndData, ?_⟩
        rw [decodeValue]
        rw [if_neg (by omega), if_neg (by omega), if_pos (by omega)]
        have hsub : 0xb7 + (beBytes b.length).length - 0xb7 =
            (beBytes b.length).length := by omega
        rw [hsub]
        by_cases hjL : j < (beBytes b.length).length
        · -- cut inside the length bytes
          rw [if_pos (by simp [List.length_take, List.length_append]; omega)]
        · -- length bytes intact, payload cut short
          rw [if_neg (by simp [List.length_take, List.length_append]; omega)]
          rw [List.take_take]
          have hmin : min (beBytes b.length).length j = (beBytes b.length).length := by
            omega
          rw [hmin, List.take_left (beBytes b.length) b]
          rw [decodeUsize_beBytes _ hne0 hL8]
          dsimp only
          rw [if_pos (by simp [List.length_take, List.length_append]; omega)]

theorem string_append_assoc (a b c : String) : a ++ b ++ c = a ++ (b ++ c) := by
  apply String.ext
  simp [String.data_append]

/-! ### Claim theorems -/

/-- C1: Encoding a `PendingTransition{proof: b}` and then decoding the
result yields `PendingTransition{proof: b}` for any non-empty byte string
`b` (bytes below 256, length within `usize`): round-trip identity of the
`Encodable`/`Decodable` pair. -/
theorem C1_pendingTransition_roundtrip (b : Bytes) (hne : b ≠ [])
    (hbytes : ∀ x ∈ b, x < 256) (hlen : b.length < 2 ^ 64) :
    PendingTransition.decode (rlpEncode ⟨b⟩) = Except.ok ⟨b⟩ := by
  unfold PendingTransition.decode rlpEncode PendingTransition.rlp_append
  dsimp only
  rw [List.nil_append, decodeValue_encodeValue b hlen]

/-- C1 witness: the round trip at the concrete proof bytes `[1, 2, 3]`. -/
theorem C1_pendingTransition_roundtrip_witness :
    PendingTransition.decode (rlpEncode ⟨[1, 2, 3]⟩) = Except.ok ⟨[1, 2, 3]⟩ :=
  C1_pendingTransition_roundtrip [1, 2, 3] (by decide) (by decide) (by decide)

/-- C2: `PendingTransition` decoding is total over `Except` (every input
byte sequence yields either a value or a `DecoderError`, never a panic);
decoding any strict prefix of an encoding (a truncated input) yields a
decode error; and decoding any input starting with a list prefix
(first byte at least 0xc0, a malformed input for this type) yields a
decode error. -/
theorem C2_pendingTransition_decode_total_and_rejects :
    (∀ input : List Nat, (∃ v, PendingTransition.decode input = Except.ok v) ∨
        (∃ e, PendingTransition.decode input = Except.error e)) ∧
    (∀ b : Bytes, b ≠ [] → (∀ x ∈ b, x < 256) → b.length < 2 ^ 64 →
        ∀ k, k < (rlpEncode ⟨b⟩).length →
          ∃ e, PendingTransition.decode ((rlpEncode ⟨b⟩).take k) = Except.error e) ∧
    (∀ l rest, 0xc0 ≤ l →
        PendingTransition.decode (l :: rest) =
          Except.error DecoderError.RlpExpectedToBeData) := by
  refine ⟨?_, ?_, ?_⟩
  · intro input
    cases h : PendingTransition.decode input with
    | ok v => exact Or.inl ⟨v, rfl⟩
    | error e => exact Or.inr ⟨e, rfl⟩
  · intro b hne hbytes hlen k hk
    have hE : rlpEncode ⟨b⟩ = encodeValue b := rfl
    rw [hE] at hk ⊢
    obtain ⟨e, he⟩ := decodeValue_take_encodeValue b hlen k hk
    refine ⟨e, ?_⟩
    unfold PendingTransition.decode
    rw [he]
  · intro l rest hl
    unfold PendingTransition.decode
    rw [decodeValue]
    rw [if_neg (by omega), if_neg (by omega), if_neg (by omega)]

/-- C2 witness: a truncated encoding (first byte only of the encoding of
proof `[1, 2, 3]`) decodes to an error, and a list-prefixed input decodes
to `RlpExpectedToBeData`. -/
theorem C2_pendingTransition_decode_total_and_rejects_witness :
    (∃ e, PendingTransition.decode ((rlpEncode ⟨[1, 2, 3]⟩).take 1) = Except.error e) ∧
    PendingTransition.decode (0xc0 :: []) =
      Except.error DecoderError.RlpExpectedToBeData :=
  ⟨C2_pendingTransition_decode_total_and_rejects.2.1 [1, 2, 3]
      (by decide) (by decide) (by decide) 1 (by decide),
    C2_pendingTransition_decode_total_and_rejects.2.2 0xc0 [] (by decide)⟩

/-- C3: Each of the four default verification phases — `verify_block_basic`,
`verify_block_unordered`, `verify_block_family`, `verify_block_external` —
returns `Ok(())` for every header (and parent, for the family phase): an
engine that overrides none of them always passes verification. -/
theorem C3_default_verification_phases_pass :
    ∀ (M : Machine) (nm : String) (vls : M.Header → Except M.Error Unit)
      (h p : M.Header),
      (ConsensusEngine.mkDefault M nm vls).verify_block_basic h = Except.ok () ∧
      (ConsensusEngine.mkDefault M nm vls).verify_block_unordered h = Except.ok () ∧
      (ConsensusEngine.mkDefault M nm vls).verify_block_family h p = Except.ok () ∧
      (ConsensusEngine.mkDefault M nm vls).verify_block_external h = Except.ok () :=
  fun _ _ _ _ _ => ⟨rfl, rfl, rfl, rfl⟩

/-- C4: For the default implementations, `signals_epoch_end` returns
`EpochChange::No` for every header and `is_epoch_end` returns `None` for
every chain head and every pair of lookup closures, so no transition ever
materializes (the signalling/epoch-end pair is trivially consistent). -/
theorem C4_default_epoch_signalling_consistent :
    ∀ (M : Machine) (nm : String) (vls : M.Header → Except M.Error Unit)
      (h head : M.Header) (chain : Headers M.Header)
      (store : PendingTransitionStore),
      (ConsensusEngine.mkDefault M nm vls).signals_epoch_end h = EpochChange.No ∧
      (ConsensusEngine.mkDefault M nm vls).is_epoch_end head chain store = none :=
  fun _ _ _ _ _ _ _ => ⟨rfl, rfl⟩

/-- C5: The default `generate_seal(block, parent)` returns `Seal::None`
for every block and parent: an engine that does not override it never
produces a Proposal or Regular seal. -/
theorem C5_default_generate_seal_none :
    ∀ (M : Machine) (nm : String) (vls : M.Header → Except M.Error Unit)
      (block : M.LiveBlock) (parent : M.Header),
      (ConsensusEngine.mkDefault M nm vls).generate_seal block parent = Seal.None :=
  fun _ _ _ _ _ => rfl

/-- C6: Formatting `EngineError::NotAuthorized(addr)` with `Display`
produces exactly the string "Engine error (Signer <addr> is not
authorized.)" where `<addr>` is the rendered address, for every address. -/
theorem C6_engineError_display (a : Address) :
    EngineError.display (EngineError.NotAuthorized a) =
      "Engine error (Signer " ++ a ++ " is not authorized.)" := by
  show "Engine error (" ++ ("Signer " ++ a ++ " is not authorized.") ++ ")" = _
  apply String.ext
  simp [String.data_append]

/-- C7: The default `epoch_verifier(header, proof)` returns
`ConstructedVerifier::Trusted` wrapping the no-op verifier (which accepts
every header) for every header and every proof byte slice; in particular
it never returns `Unconfirmed` or `Err`. -/
theorem C7_default_epoch_verifier_trusted_noop :
    ∀ (M : Machine) (nm : String) (vls : M.Header → Except M.Error Unit)
      (h : M.Header) (proofBytes : Bytes),
      (ConsensusEngine.mkDefault M nm vls).epoch_verifier h proofBytes =
          ConstructedVerifier.Trusted (NoOp M) ∧
        (∀ h' : M.Header, NoOp M h' = Except.ok ()) :=
  fun _ _ _ _ _ => ⟨rfl, fun _ => rfl⟩

/-- C8: The default `sign(hash)` is `unimplemented!()`: for every hash it
panics, and in particular never returns a `Signature` or an `Err` value. -/
theorem C8_default_sign_unimplemented :
    ∀ (M : Machine) (nm : String) (vls : M.Header → Except M.Error Unit)
      (hash : H256),
      (ConsensusEngine.mkDefault M nm vls).sign hash =
          PanicOutcome.panics "not implemented" ∧
        (∀ s : Signature, (ConsensusEngine.mkDefault M nm vls).sign hash ≠
          PanicOutcome.returns (Except.ok s)) ∧
        (∀ e : Error, (ConsensusEngine.mkDefault M nm vls).sign hash ≠
          PanicOutcome.returns (Except.error e)) :=
  fun _ _ _ _ =>
    ⟨rfl, fun _ hc => PanicOutcome.noConfusion hc, fun _ hc => PanicOutcome.noConfusion hc⟩

/-- C9: `seal_fields` is deterministic — for any engine, two calls on
equal headers return the same count — and the default implementation
returns 0 for every header. -/
theorem C9_seal_fields_deterministic :
    (∀ (M : Machine) (e : ConsensusEngine M) (h h' : M.Header),
        h = h' → e.seal_fields h = e.seal_fields h') ∧
      (∀ (M : Machine) (nm : String) (vls : M.Header → Except M.Error Unit)
        (h : M.Header), (ConsensusEngine.mkDefault M nm vls).seal_fields h = 0) :=
  ⟨fun _ _ _ _ heq => heq ▸ rfl, fun _ _ _ _ => rfl⟩

/-- C9 witness: determinism and the default count, at the trivial machine
and a concrete header. -/
theorem C9_seal_fields_deterministic_witness :
    ((ConsensusEngine.mkDefault trivialMachine "engine" fun _ => Except.ok ()).seal_fields () =
        (ConsensusEngine.mkDefault trivialMachine "engine" fun _ => Except.ok ()).seal_fields ()) ∧
      (ConsensusEngine.mkDefault trivialMachine "engine" fun _ => Except.ok ()).seal_fields () = 0 :=
  ⟨C9_seal_fields_deterministic.1 trivialMachine
      (ConsensusEngine.mkDefault trivialMachine "engine" fun _ => Except.ok ()) () () rfl,
    C9_seal_fields_deterministic.2 trivialMachine "engine" (fun _ => Except.ok ()) ()⟩

/-- C10: The default `genesis_epoch_data(header)` never fails: for every
header it returns `Ok` with an empty byte vector, so an engine that does
not override it cannot hit the fatal-at-genesis failure path. -/
theorem C10_default_genesis_epoch_data_ok :
    ∀ (M : Machine) (nm : String) (vls : M.Header → Except M.Error Unit)
      (h : M.Header),
      (ConsensusEngine.mkDefault M nm vls).genesis_epoch_data h = Except.ok [] :=
  fun _ _ _ _ => rfl
